import Mathlib

/-!
# Verification of the Maya FBX exporter (fbx_exporter_v008.py)

A shallow embedding of the exporter's pure logic and host-visible effects.
The host application (Maya) and the GUI toolkit are modelled by explicit
state records and event traces; each Python function of the source is
translated into an executable Lean definition over those states.

Conventions:
* filesystem state is a record of existing file paths and directory paths;
* user interaction with modal Ok/Cancel dialogs is a list of booleans
  consumed in order (`true` = Ok, `false` = Cancel; an exhausted list means
  the user dismissed the dialog, which the source treats as Cancel);
* observable host actions (dialogs, file removal, directory creation,
  FBX writes, scene edits) are collected in event traces.
-/

namespace FbxExport

/-! ## String and path helpers (`_abs_path`, `_Path`, `os.path.dirname`)

The Python string operations used by the source (`str.split` on a
one-character separator, `str.replace('\\', '/')`, `str.join`, `in`) are
given structural implementations over the character list of a `String`. -/

/-- Python's `c in s` for a character. -/
def strContains (s : String) (c : Char) : Bool := s.data.contains c

/-- Python's `s.startswith(pre)` / the `ns:*` name prefix test. -/
def strStartsWith (s pre : String) : Bool := List.isPrefixOf pre.data s.data

/-- Model of `str.split(sep)` on a one-character separator, character-list level. -/
def splitCharList (sep : Char) : List Char → List (List Char)
  | [] => [[]]
  | c :: cs =>
    match splitCharList sep cs with
    | [] => [[]]
    | h :: t => if c = sep then [] :: h :: t else (c :: h) :: t

/-- Model of `str.split(sep)` on a one-character separator. -/
def splitChar (sep : Char) (s : String) : List String :=
  (splitCharList sep s.data).map String.mk

/-- Model of `sep.join(parts)` for a one-character separator. -/
def joinChar (sep : Char) (parts : List String) : String :=
  String.mk (List.intercalate [sep] (parts.map String.data))

/-- Model of `sep.join(parts)` for an arbitrary separator string. -/
def joinSep (sep : String) : List String → String
  | [] => ""
  | [s] => s
  | s :: rest => s ++ sep ++ joinSep sep rest

/-- Model of `_abs_path`: the source calls `os.path.abspath(path).replace('\\', '/')`.
Paths handed to the tool are already absolute and normalised, so
`os.path.abspath` is modelled as the identity and only the backslash
replacement remains. -/
def absPath (p : String) : String :=
  String.mk (p.data.map (fun c => if c = '\\' then '/' else c))

/-- Model of `os.path.dirname` for slash-separated paths: everything before the last
slash (empty when the path has no slash). -/
def dirnameStr (p : String) : String :=
  let parts := splitChar '/' p
  if parts.length ≤ 1 then "" else joinChar '/' parts.dropLast

/-- Model of `_Path(path).basename`: the file name (last slash-separated component)
with its extension (the part after the last dot) stripped when a dot is
present. -/
def pathBasename (p : String) : String :=
  let filename := (splitChar '/' p).getLastD ""
  if strContains filename '.' then joinChar '.' (splitChar '.' filename).dropLast
  else filename

/-! ## Settings persistence (`_FbxExporterUi.save_settings` / `load_settings`)

`QSettings` in INI format is modelled as an association list from keys to
strings; `setValue` overwrites an existing entry or appends a new one, and
boolean widget states are serialised as the INI strings "true"/"false",
which is how PySide2's `QSettings` stores Python booleans in an INI file. -/

/-- The INI settings store. -/
abbrev Settings := List (String × String)

/-- Model of `QSettings.setValue`: replace the entry for `k` or append it. -/
def setValue (st : Settings) (k v : String) : Settings :=
  if st.any (fun p => p.1 == k) then
    st.map (fun p => if p.1 == k then (k, v) else p)
  else st ++ [(k, v)]

/-- Model of `QSettings.value`: the stored string for `k`, if any. -/
def getValue (st : Settings) (k : String) : Option String :=
  (st.find? (fun p => p.1 == k)).map (fun p => p.2)

/-- How a Python boolean is written to an INI file by `QSettings`. -/
def boolToIni (b : Bool) : String := if b then "true" else "false"

/-- Model of `load_settings`' mapping `{'true': True, 'false': False}.get(_val, _val)`:
the stored string converted back to a boolean when possible. -/
def iniToBool (s : String) : Option Bool :=
  if s == "true" then some true else if s == "false" then some false else none

/-- The five widgets whose state is persisted, in the order of
`_save_attrs`: three checkboxes (booleans) and two line edits (strings). -/
structure UiState where
  add_border_keys : Bool
  bake_cams_in_world : Bool
  path : String
  show_default_cams : Bool
  roots : String
  deriving DecidableEq

/-- Model of `_save_attrs` of `_FbxExporterUi._setup_settings`. -/
def saveAttrs : List String :=
  ["add_border_keys", "bake_cams_in_world", "path", "show_default_cams", "roots"]

/-- Model of `save_settings`: iterate `_save_attrs` in order; a checkbox stores its
checked state, a line edit stores its text. -/
def saveSettings (ui : UiState) (st : Settings) : Settings :=
  let st1 := setValue st "add_border_keys" (boolToIni ui.add_border_keys)
  let st2 := setValue st1 "bake_cams_in_world" (boolToIni ui.bake_cams_in_world)
  let st3 := setValue st2 "path" ui.path
  let st4 := setValue st3 "show_default_cams" (boolToIni ui.show_default_cams)
  setValue st4 "roots" ui.roots

/-- Model of `load_settings` body for a checkbox attribute: a missing value is
skipped, a value that maps to a boolean is applied with `setChecked`, and a
non-boolean value is ignored (the source only calls `setChecked` when the
mapped value is a `bool`). -/
def loadCheckbox (st : Settings) (k : String) (cur : Bool) : Bool :=
  match getValue st k with
  | none => cur
  | some v =>
    match iniToBool v with
    | some b => b
    | none => cur

/-- Model of `load_settings` body for a line-edit attribute: a missing value is
skipped, otherwise `setText` is called with the stored string. -/
def loadLineEdit (st : Settings) (k : String) (cur : String) : String :=
  match getValue st k with
  | none => cur
  | some v => v

/-- Model of `load_settings`: iterate `_save_attrs` and restore each widget. -/
def loadSettings (st : Settings) (ui : UiState) : UiState :=
  { add_border_keys := loadCheckbox st "add_border_keys" ui.add_border_keys
    bake_cams_in_world := loadCheckbox st "bake_cams_in_world" ui.bake_cams_in_world
    path := loadLineEdit st "path" ui.path
    show_default_cams := loadCheckbox st "show_default_cams" ui.show_default_cams
    roots := loadLineEdit st "roots" ui.roots }

/-! ## The progress-bar iterator (`_ProgressBar`)

`next()` first pumps the Qt event queue (`app.processEvents()`), then either
closes the dialog and raises `StopIteration` when the items are exhausted,
or pops the next item and sets the bar's value to the completed fraction
times 100. The surrounding `for` loop keeps calling `next()` until
`StopIteration`. -/

/-- Observable actions of the progress-bar iterator. -/
inductive PEvent where
  | pump
  | setVal (v : ℚ)
  | close
  deriving DecidableEq

/-- The iterator's state: the remaining items, the initial item count, the
bar's current value and whether the dialog has been closed. -/
structure PBarState (α : Type) where
  items : List α
  nItems : Nat
  value : ℚ
  closed : Bool

/-- Model of `_ProgressBar.__init__`: copy the items, remember their count, show the
bar at value 0. -/
def pbInit {α : Type} (items : List α) : PBarState α :=
  { items := items, nItems := items.length, value := 0, closed := false }

/-- Model of `_ProgressBar.next`: pump events; on exhaustion close and stop
(`none`), otherwise pop the head and set the value to
`(1 - remaining/total) * 100`. -/
def pbNext {α : Type} (st : PBarState α) : Option α × PBarState α × List PEvent :=
  match st.items with
  | [] => (none, { st with closed := true }, [PEvent.pump, PEvent.close])
  | x :: rest =>
    let fr : ℚ := 1 - (rest.length : ℚ) / (st.nItems : ℚ)
    (some x, { st with items := rest, value := fr * 100 },
     [PEvent.pump, PEvent.setVal (fr * 100)])

/-- Driving the iterator with a `for` loop: call `next` until it stops.
The fuel `items.length + 1` is exactly the number of `next` calls the loop
makes. -/
def pbRunFuel {α : Type} : Nat → PBarState α → List α × PBarState α × List PEvent
  | 0, st => ([], st, [])
  | Nat.succ k, st =>
    match pbNext st with
    | (none, st1, evs) => ([], st1, evs)
    | (some x, st1, evs) =>
      let out := pbRunFuel k st1
      (x :: out.1, out.2.1, evs ++ out.2.2)

/-- A complete `for` loop over a progress bar. -/
def pbRun {α : Type} (st : PBarState α) : List α × PBarState α × List PEvent :=
  pbRunFuel (st.items.length + 1) st

/-! ## Rig enumeration (`_find_rigs`) -/

/-- A reference node of the open scene, together with the host's answers to
the queries `_find_rigs` makes about it: `referenceQuery(filename)` (`none`
when the query raises `RuntimeError`), `referenceQuery(isLoaded)`,
`referenceQuery(parentNamespace)[0]` and the namespace derived via
`cmds.file(..., namespace=True)`.  `_Rig.__init__` only stores the node
name, so constructing a `_Rig` never fails (the `except ValueError` branch
of `_find_rigs` is unreachable). -/
structure RefNode where
  name : String
  file : Option String
  loaded : Bool
  parentNs : String
  ns : String
  deriving DecidableEq

/-- The Python truthiness test `if not _ref._file` applied to the file
query's result: the ref passes when the query succeeded with a non-empty
path. -/
def rigFileOk : Option String → Bool
  | none => false
  | some f => f != ""

/-- Model of `_find_rigs`: keep the reference nodes whose file query succeeds, that
are loaded, that have no parent namespace, and for which at least one of
the given root node names exists under the reference's namespace
(`cmds.objExists` is membership in the scene's node-name list). -/
def findRigs (refs : List RefNode) (roots sceneNodes : List String) : List RefNode :=
  refs.filter (fun r =>
    rigFileOk r.file && r.loaded && (r.parentNs == "") &&
      roots.any (fun root => sceneNodes.contains (r.ns ++ ":" ++ root)))

/-! ## Border keyframes (`_fbx_export_selection`, keying part)

The scene's animation state is a list of channels (node/attribute pairs
with their keyable flag, whether an animation curve is connected as their
incoming source, and whether that curve is static) plus the set of keys.
`mel DeleteAllStaticChannels` removes every static animation curve, which
disconnects those channels; it is host behaviour, modelled accordingly. -/

/-- One `node.attr` channel of the scene. -/
structure Channel where
  node : String
  attr : String
  keyable : Bool
  animCurve : Bool
  static : Bool
  deriving DecidableEq

/-- The animation-relevant scene state: channels and keyframes
`(node, attr, time)`. -/
structure AnimScene where
  channels : List Channel
  keys : List (String × String × Int)
  deriving DecidableEq

/-- Model of `mel.eval('DeleteAllStaticChannels')`: delete every static animation
curve, i.e. static channels lose their incoming curve connection. -/
def deleteAllStaticChannels (sc : AnimScene) : AnimScene :=
  { sc with channels := sc.channels.map (fun c =>
      if c.static then { c with animCurve := false } else c) }

/-- Model of `cmds.listAttr(node, keyable=True) or []`. -/
def listAttrKeyable (sc : AnimScene) (node : String) : List String :=
  (sc.channels.filter (fun c => c.node == node && c.keyable)).map (fun c => c.attr)

/-- Model of `cmds.listConnections(chan, type='animCurve', destination=False)`
is non-empty exactly when the channel has an incoming animation curve. -/
def hasAnimCurveConn (sc : AnimScene) (node attr : String) : Bool :=
  sc.channels.any (fun c => c.node == node && c.attr == attr && c.animCurve)

/-- Model of `cmds.setKeyframe(chan, time=t, insert=True)`: record a key at `t`
(idempotent when the key already exists). -/
def insertKey (k : String × String × Int) (keys : List (String × String × Int)) :
    List (String × String × Int) :=
  if keys.contains k then keys else k :: keys

/-- The inner `for _attr in _attrs` loop of `_fbx_export_selection`: skip
attribute names containing a dot, skip channels without an incoming
animation curve, and key the rest at the start and end frames. -/
def keyNodeAttrs (start stop : Int) (node : String) : List String → AnimScene → AnimScene
  | [], sc => sc
  | attr :: rest, sc =>
    keyNodeAttrs start stop node rest
      (if strContains attr '.' then sc
       else if hasAnimCurveConn sc node attr then
         { sc with keys := insertKey (node, attr, stop) (insertKey (node, attr, start) sc.keys) }
       else sc)

/-- The outer `for _node in _nodes` loop of `_fbx_export_selection`: list
the node's keyable attributes, then run the inner attribute loop. -/
def keySelection (start stop : Int) : List String → AnimScene → AnimScene
  | [], sc => sc
  | node :: rest, sc =>
    keySelection start stop rest (keyNodeAttrs start stop node (listAttrKeyable sc node) sc)

/-- The keying part of `_fbx_export_selection`: when border keys are
requested, delete all static channels, then key every remaining connected
dot-free keyable attribute of every selected node at the range borders. -/
def fbxExportSelectionKeys (selection : List String) (start stop : Int)
    (addBorderKeys : Bool) (sc : AnimScene) : AnimScene :=
  if addBorderKeys then keySelection start stop selection (deleteAllStaticChannels sc)
  else sc

/-- Claim C5's characterisation of the keying pass, exactly as the
specification states it: after the pass a key is present iff it was
already present, or it is a key at the start or end frame on a keyable
attribute of a selected node that has an incoming animation curve
connection. -/
def c5SpecKeyed (sel : List String) (start stop : Int) (sc : AnimScene)
    (k : String × String × Int) : Prop :=
  k ∈ sc.keys ∨
    (k.1 ∈ sel ∧ (k.2.2 = start ∨ k.2.2 = stop) ∧ ∃ c ∈ sc.channels,
      c.node = k.1 ∧ c.attr = k.2.1 ∧ c.keyable = true ∧ c.animCurve = true)

/-! ## Exportables and their node lists
(`_Exportable.export_fbx`, `_Camera.find_nodes`, `_Rig.find_nodes`) -/

/-- A scene node as seen by `cmds.ls(..., referencedNodes=True)`. -/
structure SceneNode where
  name : String
  referenced : Bool
  deriving DecidableEq

/-- An exportable: a camera (transform and shape node pair) or a rig
(reference node and the namespace derived from its file). -/
inductive Exportable where
  | cam (tfm shp : String)
  | rig (refNode ns : String)
  deriving DecidableEq

/-- Model of `_Camera.name`: the namespace part of the transform when it has one,
otherwise the transform name itself. -/
def camName (tfm : String) : String :=
  if strContains tfm ':' then (splitChar ':' tfm).headD tfm else tfm

/-- Model of `name` of an exportable: a camera's display name, a rig's namespace. -/
def Exportable.name : Exportable → String
  | .cam tfm _ => camName tfm
  | .rig _ ns => ns

/-- Whether `name` is a direct member of namespace `ns`, i.e. matched by
the pattern `ns:*` of `cmds.ls`. -/
def inNsDirect (ns name : String) : Bool :=
  strStartsWith name (ns ++ ":") && !((name.data.drop (ns.data.length + 1)).contains ':')

/-- Model of `_Rig.find_nodes`: `cmds.ls(namespace+":*", referencedNodes=True)` —
the referenced nodes that are direct members of the rig's namespace. -/
def lsNsReferenced (ns : String) (scene : List SceneNode) : List String :=
  (scene.filter (fun n => inNsDirect ns n.name && n.referenced)).map (fun n => n.name)

/-- Model of `find_nodes` of either exportable kind. -/
def findNodes (scene : List SceneNode) : Exportable → List String
  | .cam tfm shp => [tfm, shp]
  | .rig _ ns => lsNsReferenced ns scene

/-- Observable actions of `_Exportable.export_fbx`. -/
inductive SEvent where
  | selectNodes (nodes : List String)
  | fbxWrite (fbx : String)
  deriving DecidableEq

/-- Model of `_Exportable.export_fbx`: select `nodes or self.find_nodes()` (the
`None` default and an empty override are both falsy, so the empty list
stands for both), then run the FBX writer on the selection. -/
def exportFbxSelect (e : Exportable) (fbx : String) (overrideNodes : List String)
    (scene : List SceneNode) : List SEvent :=
  let nodes := if overrideNodes.isEmpty then findNodes scene e else overrideNodes
  [SEvent.selectNodes nodes, SEvent.fbxWrite fbx]

/-! ## World-space camera export (`_Camera.export_fbx_in_world_space`)

The scene graph is modelled as a list of nodes tagged with their namespace
(Maya namespace membership is structural; `cmds.ls(':export_tmp:*')`
matches exactly the nodes whose namespace is `export_tmp`).  The host
assigns duplicate-node names inside the current namespace; the duplicate of
node `n` is modelled as the node `n` in namespace `export_tmp`.
`cmds.delete` on the two freshly created constraint nodes removes exactly
those two entries (Maya node names are unique). -/

/-- A scene-graph node: a name and the namespace holding it (empty string
for the root namespace). -/
structure CNode where
  name : String
  ns : String
  deriving DecidableEq

/-- A keyable-attribute descriptor of the camera shape, with the answer to
`cmds.attributeQuery(attributeType=True)`. -/
structure ShapeAttr where
  attr : String
  aType : String
  keyable : Bool
  deriving DecidableEq

/-- Scene state for the world-space export: the nodes, the parent of the
camera transform (if any), and the shape's attributes. -/
structure CamScene where
  nodes : List CNode
  tfmParent : Option String
  shpAttrs : List ShapeAttr
  deriving DecidableEq

/-- Observable actions of the world-space export. -/
inductive CEvent where
  | setNs (ns : String)
  | deleteNodes (nodes : List CNode)
  | dup (src dst : String)
  | parentToWorld (node : String)
  | connectAttr (src dst : String)
  | parentCons (target dest cons : String)
  | scaleCons (target dest cons : String)
  | bake (nodes : List String) (start stop : Int)
  | deleteStatic
  | selectNodes (nodes : List String)
  | fbxWrite (fbx : String)
  deriving DecidableEq

/-- The nodes living in the `export_tmp` namespace
(`cmds.ls(':export_tmp:*')`). -/
def tmpNodes (nodes : List CNode) : List CNode :=
  nodes.filter (fun n => n.ns == "export_tmp")

/-- Model of `_set_namespace(':export_tmp', clean=True)`: delete every node of the
namespace (when there are any), then make it current. -/
def setNsExportTmpClean (nodes : List CNode) : List CNode × List CEvent :=
  let tmp := tmpNodes nodes
  (nodes.filter (fun n => !(n.ns == "export_tmp")),
   (if tmp.isEmpty then [] else [CEvent.deleteNodes tmp]) ++ [CEvent.setNs ":export_tmp"])

/-- The full name `export_tmp:n` of the duplicate of node `n`. -/
def dupName (n : String) : String := "export_tmp:" ++ n

/-- Model of `_Camera.export_fbx_in_world_space`: clean the temporary namespace,
duplicate the camera into it, unparent the duplicate when it has a parent,
connect the original shape's keyable non-message attributes to the
duplicate, parent- and scale-constrain the duplicate to the original, bake
it over the range, delete the constraints, delete static channels, export
the duplicate (select + FBX write), then clean the temporary namespace
again when `cleanup` is set and restore the root namespace. -/
def camExportWorld (tfm shp fbx : String) (start stop : Int) (cleanup : Bool)
    (sc : CamScene) : CamScene × List CEvent :=
  let (nodes0, evs0) := setNsExportTmpClean sc.nodes
  let dupTfm := dupName tfm
  let dupShp := dupName shp
  let nodes1 : List CNode := ⟨shp, "export_tmp"⟩ :: ⟨tfm, "export_tmp"⟩ :: nodes0
  let evs1 := [CEvent.dup tfm dupTfm]
  let evs2 := match sc.tfmParent with
    | some _ => [CEvent.parentToWorld dupTfm]
    | none => []
  let connAttrs := (sc.shpAttrs.filter (fun a => a.keyable && a.aType != "message")).map
    (fun a => a.attr)
  let evs3 := connAttrs.map (fun a => CEvent.connectAttr (shp ++ "." ++ a) (dupShp ++ "." ++ a))
  let pCons := dupTfm ++ "_parentConstraint1"
  let sCons := dupTfm ++ "_scaleConstraint1"
  let evs4 := [CEvent.parentCons tfm dupTfm pCons, CEvent.scaleCons tfm dupTfm sCons]
  let evs5 := [CEvent.bake [dupTfm, dupShp] start stop]
  let evs6 := [CEvent.deleteNodes [⟨pCons, "export_tmp"⟩, ⟨sCons, "export_tmp"⟩],
               CEvent.deleteStatic]
  let evs7 := [CEvent.selectNodes [dupTfm, dupShp], CEvent.fbxWrite fbx]
  let (nodes4, evs8) := if cleanup then setNsExportTmpClean nodes1 else (nodes1, [])
  let evs9 := [CEvent.setNs ":"]
  ({ sc with nodes := nodes4 },
   evs0 ++ evs1 ++ evs2 ++ evs3 ++ evs4 ++ evs5 ++ evs6 ++ evs7 ++ evs8 ++ evs9)

/-! ## The export pipeline (`_export_fbxs`)

This model tracks the filesystem, the modal dialogs and the per-item
export/skip decisions.  The scene-graph side effects of the per-item export
(selection, baking, border keys) are modelled separately above; at this
level each successfully exported item ends in `_fbx_export_selection`,
which ensures the target directory exists (without any dialog) and writes
the FBX file. -/

/-- Filesystem state: existing files and existing directories. -/
structure FS where
  files : List String
  dirs : List String
  deriving DecidableEq

/-- Model of `os.path.exists`. -/
def pathExists (fs : FS) (p : String) : Bool :=
  fs.files.contains p || fs.dirs.contains p

/-- Observable actions of the export pipeline. -/
inductive Event where
  | notify (msg : String)
  | confirm (msg : String)
  | mkdir (d : String)
  | remove (f : String)
  | fbxExport (p : String)
  deriving DecidableEq

/-- The target path of an exportable:
`_abs_path('{dir}/A_{scene basename}_{name}.fbx')`. -/
def fbxPath (dir curScene : String) (e : Exportable) : String :=
  absPath (dir ++ "/A_" ++ pathBasename curScene ++ "_" ++ e.name ++ ".fbx")

/-- The `(exportable, path)` pairs `_export_fbxs` builds first. -/
def exportPairs (exportables : List Exportable) (dir curScene : String) :
    List (Exportable × String) :=
  exportables.map (fun e => (e, fbxPath dir curScene e))

/-- The existing target files that `_export_fbxs` offers to replace. -/
def toDeleteList (exportables : List Exportable) (dir curScene : String) (fs : FS) :
    List String :=
  ((exportPairs exportables dir curScene).map Prod.snd).filter (fun p => pathExists fs p)

/-- The message of the create-directory dialog. -/
def createMsg (dir : String) : String := "Create dir?\n\n" ++ dir

/-- The message of the overwrite dialog. -/
def owMsg (toDelete : List String) : String :=
  "Replace " ++ toString toDelete.length ++ " existing fbxs?\n\n   " ++
    joinSep "\n   " toDelete

/-- The namespaced candidate root nodes of a rig. -/
def rigPossibleNodes (ns : String) (roots : List String) : List String :=
  roots.map (fun r => ns ++ ":" ++ r)

/-- The warning shown when none of a rig's candidate root nodes exists. -/
def warnMsg (ns : String) (possible : List String) : String :=
  "No root nodes exist in " ++ ns ++ ":\n\n   " ++
    joinSep "\n   " possible ++ "\n\nNothing was exported."

/-- The filesystem part of `_fbx_export_selection`: create the target's
directory when missing (no dialog here), then write the FBX file. -/
def fbxExportSelFs (fbx : String) (fs : FS) : FS × List Event :=
  let d := dirnameStr fbx
  let (fs1, evs1) :=
    if pathExists fs d then (fs, ([] : List Event))
    else ({ fs with dirs := d :: fs.dirs }, [Event.mkdir d])
  ({ fs1 with files := fbx :: fs1.files }, evs1 ++ [Event.fbxExport fbx])

/-- Whether the export loop skips an exportable: only a rig, with a
non-empty roots list none of whose candidate nodes exists, is skipped. -/
def rigSkipped (roots sceneNodes : List String) : Exportable → Bool
  | .cam _ _ => false
  | .rig _ ns =>
    !roots.isEmpty &&
      ((rigPossibleNodes ns roots).filter (fun n => sceneNodes.contains n)).isEmpty

/-- One iteration of the export loop: a camera is exported (in world space
when `bakeCamsInWorld` is set, directly otherwise); a rig with a non-empty
roots list is exported with the existing candidate root nodes unless none
exists, in which case a warning is shown and nothing is exported; any other
exportable is exported directly. -/
def exportOne (_bakeCamsInWorld : Bool) (roots sceneNodes : List String)
    (e : Exportable) (fbx : String) (fs : FS) : FS × List Event :=
  match e with
  | .cam _ _ => fbxExportSelFs fbx fs
  | .rig _ ns =>
    if roots.isEmpty then fbxExportSelFs fbx fs
    else
      let possible := rigPossibleNodes ns roots
      let nodes := possible.filter (fun n => sceneNodes.contains n)
      if nodes.isEmpty then (fs, [Event.notify (warnMsg ns possible)])
      else fbxExportSelFs fbx fs

/-- The `for _exp, _fbx in _ProgressBar(_exports, ...)` loop. -/
def exportLoop (bakeCamsInWorld : Bool) (roots sceneNodes : List String) :
    List (Exportable × String) → FS → FS × List Event
  | [], fs => (fs, [])
  | (e, fbx) :: rest, fs =>
    let step := exportOne bakeCamsInWorld roots sceneNodes e fbx fs
    let out := exportLoop bakeCamsInWorld roots sceneNodes rest step.1
    (out.1, step.2 ++ out.2)

/-- Model of `_export_fbxs`: build the target paths; notify and return when nothing
is selected; confirm and create the export directory when missing; confirm
and delete the existing target files; then export each item.  A `Cancel`
(or dismissing a dialog, modelled by an exhausted response list) raises
`RuntimeError`, aborting the run; the `error` payload carries the
filesystem state and the events emitted up to the abort. -/
def exportFbxs (exportables : List Exportable) (dir curScene : String)
    (bakeCamsInWorld : Bool) (roots sceneNodes : List String) (fs : FS)
    (resp : List Bool) : Except (FS × List Event) (FS × List Event) :=
  let exports := exportPairs exportables dir curScene
  let toDelete := toDeleteList exportables dir curScene fs
  if exports.isEmpty then .ok (fs, [Event.notify "Nothing selected to export"])
  else
    let step1 : Except (FS × List Event) (FS × List Event × List Bool) :=
      if pathExists fs dir then .ok (fs, [], resp)
      else
        match resp with
        | [] => .error (fs, [])
        | b :: rest =>
          if b then
            .ok ({ fs with dirs := dir :: fs.dirs },
                 [Event.confirm (createMsg dir), Event.mkdir dir], rest)
          else .error (fs, [])
    match step1 with
    | .error err => .error err
    | .ok (fs1, evs1, resp1) =>
      let step2 : Except (FS × List Event) (FS × List Event × List Bool) :=
        if toDelete.isEmpty then .ok (fs1, [], resp1)
        else
          match resp1 with
          | [] => .error (fs1, evs1)
          | b :: rest =>
            if b then
              .ok ({ fs1 with files := fs1.files.filter (fun f => !(toDelete.contains f)) },
                   Event.confirm (owMsg toDelete) :: toDelete.map Event.remove, rest)
            else .error (fs1, evs1)
      match step2 with
      | .error err => .error err
      | .ok (fs2, evs2, _) =>
        let out := exportLoop bakeCamsInWorld roots sceneNodes exports fs2
        .ok (out.1, evs1 ++ evs2 ++ out.2)

/-- The FBX files written during a run, in order. -/
def exportEvents (tr : List Event) : List String :=
  tr.filterMap (fun ev => match ev with | Event.fbxExport p => some p | _ => none)

/-- The filesystem state after the two confirmation steps of
`_export_fbxs` (directory created when missing, existing targets
removed). -/
def fsAfterDialogs (exportables : List Exportable) (dir curScene : String) (fs : FS) : FS :=
  let fs1 := if pathExists fs dir then fs else { fs with dirs := dir :: fs.dirs }
  let td := toDeleteList exportables dir curScene fs
  if td.isEmpty then fs1
  else { fs1 with files := fs1.files.filter (fun f => !(td.contains f)) }

/-- The events emitted by the two confirmation steps of `_export_fbxs` on
a fully confirmed run. -/
def preEvents (exportables : List Exportable) (dir curScene : String) (fs : FS) : List Event :=
  (if pathExists fs dir then [] else [Event.confirm (createMsg dir), Event.mkdir dir]) ++
    (let td := toDeleteList exportables dir curScene fs
     if td.isEmpty then [] else Event.confirm (owMsg td) :: td.map Event.remove)

/-- Claim C1 exactly as stated: every completed export run writes exactly
one FBX file per selected item, at the path
`dir/A_<scene basename>_<name>.fbx`. -/
def c1Statement : Prop :=
  ∀ (exportables : List Exportable) (dir curScene : String) (bake : Bool)
    (roots sceneNodes : List String) (fs : FS) (resp : List Bool)
    (fs1 : FS) (tr : List Event),
    exportables ≠ [] →
    exportFbxs exportables dir curScene bake roots sceneNodes fs resp =
      Except.ok (fs1, tr) →
    exportEvents tr = exportables.map (fbxPath dir curScene)

/-! ## Lemmas about the settings store -/

theorem find?_map_setEntry (st : Settings) (k v : String) :
    (st.map (fun p => if p.1 == k then (k, v) else p)).find? (fun p => p.1 == k) =
      if st.any (fun p => p.1 == k) then some (k, v) else none := by
  induction st with
  | nil => rfl
  | cons p rest ih =>
    by_cases hp : (p.1 == k) = true
    · have hany : ((p :: rest).any fun q => q.1 == k) = true := by
        simp [List.any_cons, hp]
      have hk : ((fun q : String × String => q.1 == k) (k, v)) = true := beq_self_eq_true k
      simp only [List.map_cons, if_pos hp]
      rw [@List.find?_cons_of_pos _ (fun q : String × String => q.1 == k) (k, v) _ hk,
        if_pos hany]
    · have hp' : (p.1 == k) = false := by
        simpa using hp
      simp only [List.map_cons, if_neg hp, List.any_cons, hp', Bool.false_or]
      rw [List.find?_cons_of_neg _ (by simp [hp']), ih]

theorem getValue_setValue_self (st : Settings) (k v : String) :
    getValue (setValue st k v) k = some v := by
  unfold setValue getValue
  by_cases h : st.any (fun p => p.1 == k)
  · rw [if_pos h, find?_map_setEntry, if_pos h]
    rfl
  · rw [if_neg h, List.find?_append]
    have hnone : st.find? (fun p => p.1 == k) = none := by
      rw [List.find?_eq_none]
      intro x hx hpx
      exact h (List.any_eq_true.2 ⟨x, hx, hpx⟩)
    have hk : ((fun q : String × String => q.1 == k) (k, v)) = true := beq_self_eq_true k
    rw [hnone, @List.find?_cons_of_pos _ (fun q : String × String => q.1 == k) (k, v) _ hk]
    rfl

theorem find?_map_setEntry_ne (st : Settings) (k k' v : String) (hne : (k == k') = false) :
    (st.map (fun p => if p.1 == k then (k, v) else p)).find? (fun p => p.1 == k') =
      st.find? (fun p => p.1 == k') := by
  induction st with
  | nil => rfl
  | cons p rest ih =>
    by_cases hp : (p.1 == k) = true
    · have hpk : p.1 = k := eq_of_beq hp
      have hp' : (p.1 == k') = false := by rw [hpk]; exact hne
      simp only [List.map_cons, if_pos hp]
      rw [List.find?_cons_of_neg _ (by simp [hne]),
        List.find?_cons_of_neg _ (by simp [hp']), ih]
    · simp only [List.map_cons, if_neg hp]
      cases hq : (p.1 == k') with
      | true =>
        have hq' : ((fun q : String × String => q.1 == k') p) = true := hq
        rw [@List.find?_cons_of_pos _ (fun q : String × String => q.1 == k') p _ hq',
          @List.find?_cons_of_pos _ (fun q : String × String => q.1 == k') p _ hq']
      | false =>
        rw [List.find?_cons_of_neg _ (by simp [hq]),
          List.find?_cons_of_neg _ (by simp [hq]), ih]

theorem getValue_setValue_ne (st : Settings) (k k' v : String) (hne : (k == k') = false) :
    getValue (setValue st k v) k' = getValue st k' := by
  unfold setValue getValue
  by_cases h : st.any (fun p => p.1 == k)
  · rw [if_pos h, find?_map_setEntry_ne _ _ _ _ hne]
  · rw [if_neg h, List.find?_append]
    have hlast : List.find? (fun p => p.1 == k') [(k, v)] = none := by
      simp [List.find?, hne]
    rw [hlast]
    cases List.find? (fun p => p.1 == k') st <;> rfl

theorem iniToBool_boolToIni (b : Bool) : iniToBool (boolToIni b) = some b := by
  cases b <;> rfl

/-- Claim C8: settings persistence is a round trip over exactly the five
keys `add_border_keys`, `bake_cams_in_world`, `path`, `show_default_cams`
and `roots`, stored as key/value entries in an INI file: for every UI
state, saving the settings and then loading them restores each checkbox's
checked state and each text field's text to the saved values. -/
theorem c8_settings_round_trip (ui ui0 : UiState) (st : Settings) :
    (saveSettings ui []).map Prod.fst = saveAttrs ∧
    loadSettings (saveSettings ui st) ui0 = ui := by
  constructor
  · rfl
  · have g1 : getValue (saveSettings ui st) "add_border_keys" =
        some (boolToIni ui.add_border_keys) := by
      unfold saveSettings
      rw [getValue_setValue_ne _ _ _ _ (by decide), getValue_setValue_ne _ _ _ _ (by decide),
        getValue_setValue_ne _ _ _ _ (by decide), getValue_setValue_ne _ _ _ _ (by decide)]
      exact getValue_setValue_self _ _ _
    have g2 : getValue (saveSettings ui st) "bake_cams_in_world" =
        some (boolToIni ui.bake_cams_in_world) := by
      unfold saveSettings
      rw [getValue_setValue_ne _ _ _ _ (by decide), getValue_setValue_ne _ _ _ _ (by decide),
        getValue_setValue_ne _ _ _ _ (by decide)]
      exact getValue_setValue_self _ _ _
    have g3 : getValue (saveSettings ui st) "path" = some ui.path := by
      unfold saveSettings
      rw [getValue_setValue_ne _ _ _ _ (by decide), getValue_setValue_ne _ _ _ _ (by decide)]
      exact getValue_setValue_self _ _ _
    have g4 : getValue (saveSettings ui st) "show_default_cams" =
        some (boolToIni ui.show_default_cams) := by
      unfold saveSettings
      rw [getValue_setValue_ne _ _ _ _ (by decide)]
      exact getValue_setValue_self _ _ _
    have g5 : getValue (saveSettings ui st) "roots" = some ui.roots := by
      unfold saveSettings
      exact getValue_setValue_self _ _ _
    simp only [loadSettings, loadCheckbox, loadLineEdit, g1, g2, g3, g4, g5,
      iniToBool_boolToIni]

/-! ## The progress-bar run -/

theorem pbRunFuel_spec {α : Type} (n : Nat) :
    ∀ (l : List α) (v : ℚ) (c : Bool), l.length ≤ n →
      (pbRunFuel (l.length + 1) (PBarState.mk l n v c)).1 = l ∧
      (pbRunFuel (l.length + 1) (PBarState.mk l n v c)).2.1.closed = true ∧
      (pbRunFuel (l.length + 1) (PBarState.mk l n v c)).2.2 =
        (List.range l.length).flatMap
          (fun k => [PEvent.pump, PEvent.setVal (100 * ((n : ℚ) - l.length + k + 1) / n)]) ++
          [PEvent.pump, PEvent.close] := by
  intro l
  induction l with
  | nil =>
    intro v c _
    exact ⟨rfl, rfl, rfl⟩
  | cons x rest ih =>
    intro v c h
    have hrest : rest.length ≤ n := le_trans (Nat.le_succ _) h
    have hn : (n : ℚ) ≠ 0 := by
      have h0 : 0 < n := lt_of_lt_of_le (Nat.succ_pos rest.length) h
      exact_mod_cast h0.ne'
    obtain ⟨jh1, jh2, jh3⟩ := ih ((1 - (rest.length : ℚ) / n) * 100) c hrest
    have hstep : pbRunFuel ((x :: rest).length + 1) (PBarState.mk (x :: rest) n v c) =
        (x :: (pbRunFuel (rest.length + 1)
            (PBarState.mk rest n ((1 - (rest.length : ℚ) / n) * 100) c)).1,
         (pbRunFuel (rest.length + 1)
            (PBarState.mk rest n ((1 - (rest.length : ℚ) / n) * 100) c)).2.1,
         [PEvent.pump, PEvent.setVal ((1 - (rest.length : ℚ) / n) * 100)] ++
           (pbRunFuel (rest.length + 1)
            (PBarState.mk rest n ((1 - (rest.length : ℚ) / n) * 100) c)).2.2) := rfl
    rw [hstep]
    refine ⟨by rw [jh1], by rw [jh2], ?_⟩
    rw [jh3, List.length_cons, List.range_succ_eq_map, List.flatMap_cons, List.flatMap_map,
      List.append_assoc]
    simp only [List.cons_append, List.nil_append, List.cons.injEq, true_and,
      PEvent.setVal.injEq]
    refine ⟨?_, ?_⟩
    · field_simp
      ring
    · congr 1
      congr 1
      funext a
      simp only [List.cons.injEq, and_true, true_and, PEvent.setVal.injEq]
      push_cast [Nat.succ_eq_add_one]
      ring

/-- Claim C9: the progress-bar iterator pumps the UI event queue on every
iteration step, yields each item of the original list exactly once in list
order, sets the bar's value to the completed percentage after each item,
and closes the progress dialog exactly when the items are exhausted. -/
theorem c9_progress_bar_run {α : Type} (items : List α) :
    (pbRun (pbInit items)).1 = items ∧
    (pbRun (pbInit items)).2.1.closed = true ∧
    (pbRun (pbInit items)).2.2 =
      (List.range items.length).flatMap
        (fun k => [PEvent.pump, PEvent.setVal (100 * ((k : ℚ) + 1) / (items.length : ℚ))]) ++
      [PEvent.pump, PEvent.close] := by
  obtain ⟨h1, h2, h3⟩ := pbRunFuel_spec items.length items 0 false le_rfl
  simp only [pbRun, pbInit]
  refine ⟨h1, h2, ?_⟩
  rw [h3]
  congr 1
  congr 1
  funext k
  congr 2
  ring

/-! ## Rig enumeration -/

/-- Claim C4: a reference node appears in `_find_rigs`' result iff its file
query succeeds, it is loaded, it has no parent namespace, and one of the
root node names exists under its namespace.  (`_Rig`'s constructor only
stores the node name, so "a Rig can be constructed from it without error"
holds for every reference node; the `except ValueError` guard of the
source is unreachable.)  The hypothesis records the host invariant that a
successful file query never returns the empty path. -/
theorem c4_find_rigs_membership (refs : List RefNode) (roots sceneNodes : List String)
    (r : RefNode) (hfile : ∀ q ∈ refs, q.file ≠ some "") :
    r ∈ findRigs refs roots sceneNodes ↔
      r ∈ refs ∧ r.file ≠ none ∧ r.loaded = true ∧ r.parentNs = "" ∧
        ∃ root ∈ roots, sceneNodes.contains (r.ns ++ ":" ++ root) = true := by
  simp only [findRigs, List.mem_filter, Bool.and_eq_true, List.any_eq_true]
  constructor
  · rintro ⟨hm, ⟨⟨⟨hf, hl⟩, hp⟩, root, hroot, hc⟩⟩
    refine ⟨hm, ?_, hl, eq_of_beq hp, root, hroot, hc⟩
    intro hnone
    rw [hnone] at hf
    exact absurd hf (by simp [rigFileOk])
  · rintro ⟨hm, hf, hl, hp, root, hroot, hc⟩
    refine ⟨hm, ⟨⟨⟨?_, hl⟩, by simp [hp]⟩, root, hroot, hc⟩⟩
    cases hq : r.file with
    | none => exact absurd hq hf
    | some f =>
      have hf0 : f ≠ "" := by
        intro h0
        exact hfile r hm (by rw [hq, h0])
      simp [rigFileOk, hf0]

/-- Witness for C4 at a concrete scene: two reference nodes, of which only
the loaded, parentless one with an existing root node is returned. -/
theorem c4_witness :
    (∀ q ∈ [RefNode.mk "RN1" (some "/rigs/bob.ma") true "" "bob",
            RefNode.mk "RN2" (some "/rigs/cat.ma") false "" "cat"],
        q.file ≠ some "") ∧
    (RefNode.mk "RN1" (some "/rigs/bob.ma") true "" "bob" ∈
        findRigs [RefNode.mk "RN1" (some "/rigs/bob.ma") true "" "bob",
                  RefNode.mk "RN2" (some "/rigs/cat.ma") false "" "cat"]
          ["JNT_Grp"] ["bob:JNT_Grp"] ↔
      RefNode.mk "RN1" (some "/rigs/bob.ma") true "" "bob" ∈
          [RefNode.mk "RN1" (some "/rigs/bob.ma") true "" "bob",
           RefNode.mk "RN2" (some "/rigs/cat.ma") false "" "cat"] ∧
        (RefNode.mk "RN1" (some "/rigs/bob.ma") true "" "bob").file ≠ none ∧
        (RefNode.mk "RN1" (some "/rigs/bob.ma") true "" "bob").loaded = true ∧
        (RefNode.mk "RN1" (some "/rigs/bob.ma") true "" "bob").parentNs = "" ∧
        ∃ root ∈ ["JNT_Grp"],
          List.contains ["bob:JNT_Grp"]
            ((RefNode.mk "RN1" (some "/rigs/bob.ma") true "" "bob").ns ++ ":" ++ root) = true) :=
  ⟨by decide,
   c4_find_rigs_membership _ _ _ _ (by decide)⟩

/-! ## Exportable node lists -/

/-- Claim C7: a camera's node list is exactly its transform and shape pair,
a rig's node list is the referenced nodes directly under its namespace, and
`export_fbx` selects exactly that list (or the caller's override list)
before invoking the FBX writer. -/
theorem c7_node_lists (scene : List SceneNode) (tfm shp rn ns fbx : String)
    (e : Exportable) (ov : List String) :
    findNodes scene (Exportable.cam tfm shp) = [tfm, shp] ∧
    (∀ x, x ∈ findNodes scene (Exportable.rig rn ns) ↔
      ∃ nd ∈ scene, nd.name = x ∧ nd.referenced = true ∧ inNsDirect ns x = true) ∧
    exportFbxSelect e fbx ov scene =
      [SEvent.selectNodes (if ov.isEmpty then findNodes scene e else ov),
       SEvent.fbxWrite fbx] := by
  refine ⟨rfl, ?_, rfl⟩
  intro x
  simp only [findNodes, lsNsReferenced, List.mem_map, List.mem_filter, Bool.and_eq_true]
  constructor
  · rintro ⟨nd, ⟨hmem, hns, href⟩, hname⟩
    exact ⟨nd, hmem, hname, href, hname ▸ hns⟩
  · rintro ⟨nd, hmem, hname, href, hns⟩
    exact ⟨nd, ⟨hmem, hname ▸ hns, href⟩, hname⟩

/-! ## The export pipeline: empty selection -/

/-- Claim C10: invoked with an empty list of exportables, the export
operation notifies the user that nothing is selected and returns with the
filesystem unchanged — no directory creation, no file deletion and no FBX
export. -/
theorem c10_empty_export_noop (dir curScene : String) (bake : Bool)
    (roots sceneNodes : List String) (fs : FS) (resp : List Bool) :
    exportFbxs [] dir curScene bake roots sceneNodes fs resp =
      .ok (fs, [Event.notify "Nothing selected to export"]) := rfl

/-! ## Border-key insertion -/

theorem mem_insertKey (k0 k : String × String × Int) (keys : List (String × String × Int)) :
    k ∈ insertKey k0 keys ↔ k = k0 ∨ k ∈ keys := by
  unfold insertKey
  by_cases h : keys.contains k0 = true
  · have h0 : k0 ∈ keys := by
      simpa [List.contains, List.elem_iff] using h
    rw [if_pos h]
    constructor
    · exact Or.inr
    · rintro (rfl | hk)
      · exact h0
      · exact hk
  · rw [if_neg h, List.mem_cons]

theorem keyNodeAttrs_channels (start stop : Int) (node : String) (attrs : List String) :
    ∀ sc : AnimScene, (keyNodeAttrs start stop node attrs sc).channels = sc.channels := by
  induction attrs with
  | nil => intro sc; rfl
  | cons a rest ih =>
    intro sc
    simp only [keyNodeAttrs]
    rw [ih]
    split
    · rfl
    · split <;> rfl

theorem hasAnimCurveConn_congr {sc1 sc2 : AnimScene} (h : sc1.channels = sc2.channels) :
    ∀ node attr, hasAnimCurveConn sc1 node attr = hasAnimCurveConn sc2 node attr := by
  intro node attr
  unfold hasAnimCurveConn
  rw [h]

theorem listAttrKeyable_congr {sc1 sc2 : AnimScene} (h : sc1.channels = sc2.channels) :
    ∀ node, listAttrKeyable sc1 node = listAttrKeyable sc2 node := by
  intro node
  unfold listAttrKeyable
  rw [h]

theorem keyNodeAttrs_keys (start stop : Int) (node : String) (attrs : List String) :
    ∀ (sc : AnimScene) (k : String × String × Int),
      k ∈ (keyNodeAttrs start stop node attrs sc).keys ↔
        k ∈ sc.keys ∨ ∃ a ∈ attrs, strContains a '.' = false ∧
          hasAnimCurveConn sc node a = true ∧
          (k = (node, a, start) ∨ k = (node, a, stop)) := by
  induction attrs with
  | nil =>
    intro sc k
    simp [keyNodeAttrs]
  | cons a rest ih =>
    intro sc k
    simp only [keyNodeAttrs]
    by_cases hdot : strContains a '.' = true
    · rw [if_pos hdot, ih, List.exists_mem_cons_iff]
      simp only [hdot]
      aesop
    · have hdot' : strContains a '.' = false := by simpa using hdot
      rw [if_neg hdot]
      by_cases hconn : hasAnimCurveConn sc node a = true
      · rw [if_pos hconn, ih, List.exists_mem_cons_iff]
        have hcc : ∀ x, hasAnimCurveConn
            { sc with keys := insertKey (node, a, stop) (insertKey (node, a, start) sc.keys) }
              node x = hasAnimCurveConn sc node x := fun _ => rfl
        simp only [hcc, mem_insertKey, hdot', hconn]
        aesop
      · rw [if_neg hconn, ih, List.exists_mem_cons_iff]
        simp only [hdot', hconn]
        aesop

theorem keySelection_channels (start stop : Int) (sel : List String) :
    ∀ sc : AnimScene, (keySelection start stop sel sc).channels = sc.channels := by
  induction sel with
  | nil => intro sc; rfl
  | cons node rest ih =>
    intro sc
    simp only [keySelection]
    rw [ih, keyNodeAttrs_channels]

theorem keySelection_keys (start stop : Int) (sel : List String) :
    ∀ (sc : AnimScene) (k : String × String × Int),
      k ∈ (keySelection start stop sel sc).keys ↔
        k ∈ sc.keys ∨ ∃ node ∈ sel, ∃ a ∈ listAttrKeyable sc node,
          strContains a '.' = false ∧ hasAnimCurveConn sc node a = true ∧
          (k = (node, a, start) ∨ k = (node, a, stop)) := by
  induction sel with
  | nil =>
    intro sc k
    simp [keySelection]
  | cons node rest ih =>
    intro sc k
    simp only [keySelection]
    have hch := keyNodeAttrs_channels start stop node (listAttrKeyable sc node) sc
    rw [ih, keyNodeAttrs_keys, List.exists_mem_cons_iff]
    simp only [listAttrKeyable_congr hch, hasAnimCurveConn_congr hch]
    aesop

theorem listAttrKeyable_iff (sc : AnimScene) (node a : String) :
    a ∈ listAttrKeyable sc node ↔
      ∃ c ∈ sc.channels, c.node = node ∧ c.attr = a ∧ c.keyable = true := by
  simp only [listAttrKeyable, List.mem_map, List.mem_filter, Bool.and_eq_true, beq_iff_eq]
  constructor
  · rintro ⟨c, ⟨hm, hn, hk⟩, ha⟩
    exact ⟨c, hm, hn, ha, hk⟩
  · rintro ⟨c, hm, hn, ha, hk⟩
    exact ⟨c, ⟨hm, hn, hk⟩, ha⟩

theorem hasAnimCurveConn_iff (sc : AnimScene) (node a : String) :
    hasAnimCurveConn sc node a = true ↔
      ∃ c ∈ sc.channels, c.node = node ∧ c.attr = a ∧ c.animCurve = true := by
  simp only [hasAnimCurveConn, List.any_eq_true, Bool.and_eq_true, beq_iff_eq]
  tauto

theorem deleteStatic_channels_map (sc : AnimScene) :
    (deleteAllStaticChannels sc).channels.map (fun c => (c.node, c.attr)) =
      sc.channels.map (fun c => (c.node, c.attr)) := by
  simp only [deleteAllStaticChannels, List.map_map]
  congr 1
  funext c
  by_cases h : c.static <;> simp [h]

/-- Claim C5, amended: when border keys are enabled, the export inserts
keyframes at exactly the start and the end frame on every keyable attribute
of every selected node whose name contains no period and that still has an
incoming animation-curve connection after the static channels are deleted,
and on no other attribute.  The hypothesis states that the scene has at
most one channel per `(node, attribute)` pair. -/
theorem c5_border_keys (sel : List String) (start stop : Int) (sc : AnimScene)
    (hwf : (sc.channels.map (fun c => (c.node, c.attr))).Nodup)
    (k : String × String × Int) :
    k ∈ (fbxExportSelectionKeys sel start stop true sc).keys ↔
      k ∈ sc.keys ∨
        (k.1 ∈ sel ∧ (k.2.2 = start ∨ k.2.2 = stop) ∧ ∃ c ∈ sc.channels,
          c.node = k.1 ∧ c.attr = k.2.1 ∧ c.keyable = true ∧ c.animCurve = true ∧
          c.static = false ∧ strContains c.attr '.' = false) := by
  obtain ⟨n0, a0, t0⟩ := k
  have hkeys : (deleteAllStaticChannels sc).keys = sc.keys := rfl
  have hwf1 : ((deleteAllStaticChannels sc).channels.map (fun c => (c.node, c.attr))).Nodup := by
    rw [deleteStatic_channels_map]
    exact hwf
  unfold fbxExportSelectionKeys
  rw [if_pos rfl, keySelection_keys, hkeys]
  dsimp only
  constructor
  · rintro (hk | ⟨node, hnode, a, ha, hdot, hconn, hk⟩)
    · exact Or.inl hk
    · right
      obtain ⟨ck, hckm, hckn, hcka, hckk⟩ := (listAttrKeyable_iff _ _ _).1 ha
      obtain ⟨ca, hcam, hcan, hcaa, hcac⟩ := (hasAnimCurveConn_iff _ _ _).1 hconn
      have heq : ck = ca :=
        List.inj_on_of_nodup_map hwf1 hckm hcam (by rw [hckn, hcka, hcan, hcaa])
      subst heq
      obtain ⟨c0, hc0m, hc0e⟩ := List.mem_map.1 hckm
      have hstat : c0.static = false := by
        by_contra hs
        have hs' : c0.static = true := by simpa using hs
        rw [← hc0e] at hcac
        simp [hs'] at hcac
      have hc0 : (if c0.static = true then { c0 with animCurve := false } else c0) = c0 := by
        rw [if_neg (by simp [hstat])]
      rw [hc0] at hc0e
      subst hc0e
      rcases hk with hk | hk <;> rw [Prod.mk.injEq, Prod.mk.injEq] at hk <;>
        obtain ⟨hn, ha', ht⟩ := hk
      · subst hn; subst ha'; subst ht
        exact ⟨hnode, Or.inl rfl, c0, hc0m, hckn, hcka, hckk, hcac, hstat, by rw [hcka]; exact hdot⟩
      · subst hn; subst ha'; subst ht
        exact ⟨hnode, Or.inr rfl, c0, hc0m, hckn, hcka, hckk, hcac, hstat, by rw [hcka]; exact hdot⟩
  · rintro (hk | ⟨hsel, ht, c0, hc0m, hn, ha, hkey, hcurve, hstat, hdot⟩)
    · exact Or.inl hk
    · right
      have hc0m1 : c0 ∈ (deleteAllStaticChannels sc).channels := by
        unfold deleteAllStaticChannels
        simp only [List.mem_map]
        exact ⟨c0, hc0m, by rw [if_neg (by simp [hstat])]⟩
      refine ⟨n0, hsel, a0, ?_, ?_, ?_, ?_⟩
      · exact (listAttrKeyable_iff _ _ _).2 ⟨c0, hc0m1, hn, ha, hkey⟩
      · rw [← ha]; exact hdot
      · exact (hasAnimCurveConn_iff _ _ _).2 ⟨c0, hc0m1, hn, ha, hcurve⟩
      · rcases ht with ht | ht
        · exact Or.inl (by rw [ht])
        · exact Or.inr (by rw [ht])

/-- Counterexample to claim C5 as stated: with one keyable, connected
attribute whose name contains a period and one keyable, connected but
static attribute, the claim demands border keys on both, while the code
keys neither (the dotted attribute is skipped, and the static channel's
curve is deleted before the connection test). -/
theorem c5_counterexample :
    ¬ ((("pCube1", "w.x", (1 : Int)) ∈
        (fbxExportSelectionKeys ["pCube1"] 1 10 true
          (AnimScene.mk [Channel.mk "pCube1" "w.x" true true false,
                         Channel.mk "pCube1" "tx" true true true] [])).keys ↔
        c5SpecKeyed ["pCube1"] 1 10
          (AnimScene.mk [Channel.mk "pCube1" "w.x" true true false,
                         Channel.mk "pCube1" "tx" true true true] [])
          ("pCube1", "w.x", 1))) ∧
    ¬ ((("pCube1", "tx", (1 : Int)) ∈
        (fbxExportSelectionKeys ["pCube1"] 1 10 true
          (AnimScene.mk [Channel.mk "pCube1" "w.x" true true false,
                         Channel.mk "pCube1" "tx" true true true] [])).keys ↔
        c5SpecKeyed ["pCube1"] 1 10
          (AnimScene.mk [Channel.mk "pCube1" "w.x" true true false,
                         Channel.mk "pCube1" "tx" true true true] [])
          ("pCube1", "tx", 1))) := by
  constructor
  · intro h
    have hs : c5SpecKeyed ["pCube1"] 1 10
        (AnimScene.mk [Channel.mk "pCube1" "w.x" true true false,
                       Channel.mk "pCube1" "tx" true true true] [])
        ("pCube1", "w.x", 1) := by
      right
      exact ⟨by decide, Or.inl rfl,
        Channel.mk "pCube1" "w.x" true true false, by decide, rfl, rfl, rfl, rfl⟩
    have := h.2 hs
    revert this
    decide
  · intro h
    have hs : c5SpecKeyed ["pCube1"] 1 10
        (AnimScene.mk [Channel.mk "pCube1" "w.x" true true false,
                       Channel.mk "pCube1" "tx" true true true] [])
        ("pCube1", "tx", 1) := by
      right
      exact ⟨by decide, Or.inl rfl,
        Channel.mk "pCube1" "tx" true true true, by decide, rfl, rfl, rfl, rfl⟩
    have := h.2 hs
    revert this
    decide

/-- Witness for the amended C5 at a concrete scene: a keyable connected
translate attribute is keyed at both borders. -/
theorem c5_witness :
    (((AnimScene.mk [Channel.mk "pCube1" "tx" true true false] []).channels.map
        (fun c => (c.node, c.attr))).Nodup) ∧
    ((("pCube1", "tx", (1 : Int)) ∈
        (fbxExportSelectionKeys ["pCube1"] 1 10 true
          (AnimScene.mk [Channel.mk "pCube1" "tx" true true false] [])).keys ↔
      ("pCube1", "tx", (1 : Int)) ∈
          (AnimScene.mk [Channel.mk "pCube1" "tx" true true false] ([] :
            List (String × String × Int))).keys ∨
        (("pCube1", "tx", (1 : Int)).1 ∈ ["pCube1"] ∧
          (("pCube1", "tx", (1 : Int)).2.2 = 1 ∨ ("pCube1", "tx", (1 : Int)).2.2 = 10) ∧
          ∃ c ∈ (AnimScene.mk [Channel.mk "pCube1" "tx" true true false] ([] :
              List (String × String × Int))).channels,
            c.node = ("pCube1", "tx", (1 : Int)).1 ∧
            c.attr = ("pCube1", "tx", (1 : Int)).2.1 ∧ c.keyable = true ∧
            c.animCurve = true ∧ c.static = false ∧
            strContains c.attr '.' = false))) :=
  ⟨by decide,
   c5_border_keys ["pCube1"] 1 10
     (AnimScene.mk [Channel.mk "pCube1" "tx" true true false] []) (by decide)
     ("pCube1", "tx", 1)⟩

/-! ## World-space camera export -/

/-- Claim C6: the world-space camera export performs, in order: duplicate
the camera, parent the duplicate to world, connect the original shape's
keyable attributes to the duplicate, parent- and scale-constrain the
duplicate to the original, bake the duplicate over the export range, delete
the constraints, export the duplicate, and (cleanup enabled) delete every
node in the temporary `:export_tmp` namespace, leaving the original
camera's transform and shape in the scene.  Hypotheses: the transform has a
parent (otherwise the re-parent step is skipped), no keyable shape
attribute has the `message` type (those are never connected), the temporary
namespace starts out empty, and the original nodes live in the scene's root
namespace. -/
theorem c6_world_space_export (tfm shp fbx : String) (start stop : Int)
    (sc : CamScene) (p : String)
    (hparent : sc.tfmParent = some p)
    (hclean : tmpNodes sc.nodes = [])
    (hmsg : ∀ a ∈ sc.shpAttrs, a.keyable = true → a.aType ≠ "message")
    (htfm : CNode.mk tfm "" ∈ sc.nodes)
    (hshp : CNode.mk shp "" ∈ sc.nodes) :
    (camExportWorld tfm shp fbx start stop true sc).2 =
      [CEvent.setNs ":export_tmp", CEvent.dup tfm (dupName tfm),
       CEvent.parentToWorld (dupName tfm)] ++
      (sc.shpAttrs.filter (fun a => a.keyable)).map
        (fun a => CEvent.connectAttr (shp ++ "." ++ a.attr) (dupName shp ++ "." ++ a.attr)) ++
      [CEvent.parentCons tfm (dupName tfm) (dupName tfm ++ "_parentConstraint1"),
       CEvent.scaleCons tfm (dupName tfm) (dupName tfm ++ "_scaleConstraint1"),
       CEvent.bake [dupName tfm, dupName shp] start stop,
       CEvent.deleteNodes [CNode.mk (dupName tfm ++ "_parentConstraint1") "export_tmp",
                           CNode.mk (dupName tfm ++ "_scaleConstraint1") "export_tmp"],
       CEvent.deleteStatic,
       CEvent.selectNodes [dupName tfm, dupName shp], CEvent.fbxWrite fbx,
       CEvent.deleteNodes [CNode.mk shp "export_tmp", CNode.mk tfm "export_tmp"],
       CEvent.setNs ":export_tmp", CEvent.setNs ":"] ∧
    (camExportWorld tfm shp fbx start stop true sc).1.nodes = sc.nodes ∧
    CNode.mk tfm "" ∈ (camExportWorld tfm shp fbx start stop true sc).1.nodes ∧
    CNode.mk shp "" ∈ (camExportWorld tfm shp fbx start stop true sc).1.nodes ∧
    tmpNodes (camExportWorld tfm shp fbx start stop true sc).1.nodes = [] := by
  have hall : ∀ n ∈ sc.nodes, (n.ns == "export_tmp") = false := by
    intro n hn
    have := List.filter_eq_nil_iff.1 hclean n hn
    simpa using this
  have hfilter0 : sc.nodes.filter (fun n => !(n.ns == "export_tmp")) = sc.nodes := by
    rw [List.filter_eq_self]
    intro n hn
    simp [hall n hn]
  have hattrs : sc.shpAttrs.filter (fun a => a.keyable && a.aType != "message") =
      sc.shpAttrs.filter (fun a => a.keyable) := by
    apply List.filter_congr
    intro a ha
    cases hk : a.keyable with
    | false => simp
    | true =>
      have hne := hmsg a ha hk
      simp [bne, beq_eq_false_iff_ne.2 hne]
  have htmp1 : tmpNodes (CNode.mk shp "export_tmp" :: CNode.mk tfm "export_tmp" :: sc.nodes) =
      [CNode.mk shp "export_tmp", CNode.mk tfm "export_tmp"] := by
    unfold tmpNodes
    simp only [List.filter_cons]
    rw [if_pos (by rfl), if_pos (by rfl)]
    rw [show sc.nodes.filter (fun n => n.ns == "export_tmp") = [] from hclean]
  have hfilter1 : (CNode.mk shp "export_tmp" :: CNode.mk tfm "export_tmp" ::
      sc.nodes).filter (fun n => !(n.ns == "export_tmp")) = sc.nodes := by
    simp only [List.filter_cons]
    rw [if_neg (by simp), if_neg (by simp), hfilter0]
  simp only [camExportWorld, setNsExportTmpClean, hclean, hparent, hfilter0, hattrs]
  simp only [htmp1, hfilter1]
  simp only [List.isEmpty_nil, if_pos rfl, List.nil_append, List.isEmpty_cons,
    List.cons_append, List.map_map]
  refine ⟨?_, rfl, htfm, hshp, hclean⟩
  simp [List.append_assoc, Function.comp]

/-- Witness for C6 at a concrete one-camera scene. -/
theorem c6_witness :
    (CamScene.mk [CNode.mk "cam1" "", CNode.mk "cam1Shape" ""] (some "grp")
        [ShapeAttr.mk "focalLength" "doubleLinear" true]).tfmParent = some "grp" ∧
    tmpNodes (CamScene.mk [CNode.mk "cam1" "", CNode.mk "cam1Shape" ""] (some "grp")
        [ShapeAttr.mk "focalLength" "doubleLinear" true]).nodes = [] ∧
    (∀ a ∈ (CamScene.mk [CNode.mk "cam1" "", CNode.mk "cam1Shape" ""] (some "grp")
        [ShapeAttr.mk "focalLength" "doubleLinear" true]).shpAttrs,
      a.keyable = true → a.aType ≠ "message") ∧
    (camExportWorld "cam1" "cam1Shape" "/exp/a.fbx" 1 10 true
        (CamScene.mk [CNode.mk "cam1" "", CNode.mk "cam1Shape" ""] (some "grp")
          [ShapeAttr.mk "focalLength" "doubleLinear" true])).1.nodes =
      (CamScene.mk [CNode.mk "cam1" "", CNode.mk "cam1Shape" ""] (some "grp")
        [ShapeAttr.mk "focalLength" "doubleLinear" true]).nodes ∧
    CNode.mk "cam1" "" ∈ (camExportWorld "cam1" "cam1Shape" "/exp/a.fbx" 1 10 true
        (CamScene.mk [CNode.mk "cam1" "", CNode.mk "cam1Shape" ""] (some "grp")
          [ShapeAttr.mk "focalLength" "doubleLinear" true])).1.nodes :=
  ⟨rfl, rfl, by decide,
   (c6_world_space_export "cam1" "cam1Shape" "/exp/a.fbx" 1 10
      (CamScene.mk [CNode.mk "cam1" "", CNode.mk "cam1Shape" ""] (some "grp")
        [ShapeAttr.mk "focalLength" "doubleLinear" true]) "grp"
      rfl rfl (by decide) (by decide) (by decide)).2.1,
   (c6_world_space_export "cam1" "cam1Shape" "/exp/a.fbx" 1 10
      (CamScene.mk [CNode.mk "cam1" "", CNode.mk "cam1Shape" ""] (some "grp")
        [ShapeAttr.mk "focalLength" "doubleLinear" true]) "grp"
      rfl rfl (by decide) (by decide) (by decide)).2.2.1⟩

/-! ## The export pipeline: the confirmed run and its FBX writes -/

theorem exportEvents_append (a b : List Event) :
    exportEvents (a ++ b) = exportEvents a ++ exportEvents b :=
  List.filterMap_append a b _

theorem exportEvents_fbxExportSelFs (fbx : String) (fs : FS) :
    exportEvents (fbxExportSelFs fbx fs).2 = [fbx] := by
  unfold fbxExportSelFs
  by_cases h : pathExists fs (dirnameStr fbx) = true
  · simp only [if_pos h]
    rfl
  · simp only [if_neg h]
    rfl

theorem exportOne_events (bake : Bool) (roots sceneNodes : List String)
    (e : Exportable) (fbx : String) (fs : FS) :
    exportEvents (exportOne bake roots sceneNodes e fbx fs).2 =
      if rigSkipped roots sceneNodes e then [] else [fbx] := by
  cases e with
  | cam t s =>
    simp [exportOne, rigSkipped, exportEvents_fbxExportSelFs]
  | rig rn ns =>
    simp only [exportOne]
    by_cases hr : roots.isEmpty = true
    · have hskip : rigSkipped roots sceneNodes (Exportable.rig rn ns) = false := by
        simp only [rigSkipped, hr, Bool.not_true, Bool.false_and]
      rw [if_pos hr, hskip, exportEvents_fbxExportSelFs]
      rfl
    · by_cases hn : ((rigPossibleNodes ns roots).filter
          (fun n => sceneNodes.contains n)).isEmpty = true
      · have hskip : rigSkipped roots sceneNodes (Exportable.rig rn ns) = true := by
          simp only [rigSkipped, hn, Bool.and_true]
          simpa using hr
        rw [if_neg hr, if_pos hn, hskip]
        rfl
      · have hskip : rigSkipped roots sceneNodes (Exportable.rig rn ns) = false := by
          simp only [rigSkipped]
          have hn' : ((rigPossibleNodes ns roots).filter
              (fun n => sceneNodes.contains n)).isEmpty = false := by simpa using hn
          simp only [hn', Bool.and_false]
        rw [if_neg hr, if_neg hn, hskip, exportEvents_fbxExportSelFs]
        rfl

theorem exportLoop_exportEvents (bake : Bool) (roots sceneNodes : List String) :
    ∀ (items : List (Exportable × String)) (fs : FS),
      exportEvents (exportLoop bake roots sceneNodes items fs).2 =
        (items.filter (fun p => !(rigSkipped roots sceneNodes p.1))).map Prod.snd := by
  intro items
  induction items with
  | nil => intro fs; rfl
  | cons p rest ih =>
    intro fs
    obtain ⟨e, fbx⟩ := p
    simp only [exportLoop, exportEvents_append, exportOne_events, ih, List.filter_cons]
    cases hsk : rigSkipped roots sceneNodes e with
    | true => simp [hsk]
    | false => simp [hsk]

theorem exportEvents_removes (td : List String) :
    exportEvents (td.map Event.remove) = [] := by
  induction td with
  | nil => rfl
  | cons a r ih =>
    simp only [List.map_cons, exportEvents, List.filterMap_cons]
    exact ih

theorem exportEvents_preEvents (exportables : List Exportable) (dir curScene : String)
    (fs : FS) :
    exportEvents (preEvents exportables dir curScene fs) = [] := by
  unfold preEvents
  rw [exportEvents_append]
  by_cases hd : pathExists fs dir = true <;>
    by_cases ht : (toDeleteList exportables dir curScene fs).isEmpty = true <;>
      simp [hd, ht, exportEvents, List.filterMap_cons, exportEvents_removes]

theorem exportFbxs_ok_of_confirm (exportables : List Exportable) (dir curScene : String)
    (bake : Bool) (roots sceneNodes : List String) (fs : FS) (resp : List Bool)
    (hne : exportables ≠ []) (hall : ∀ b ∈ resp, b = true) (hlen : 2 ≤ resp.length) :
    exportFbxs exportables dir curScene bake roots sceneNodes fs resp =
      Except.ok ((exportLoop bake roots sceneNodes (exportPairs exportables dir curScene)
          (fsAfterDialogs exportables dir curScene fs)).1,
        preEvents exportables dir curScene fs ++
          (exportLoop bake roots sceneNodes (exportPairs exportables dir curScene)
            (fsAfterDialogs exportables dir curScene fs)).2) := by
  obtain ⟨b0, resp1, rfl⟩ : ∃ b0 r, resp = b0 :: r := by
    cases resp with
    | nil => simp at hlen
    | cons a r => exact ⟨a, r, rfl⟩
  obtain ⟨b1, resp2, rfl⟩ : ∃ b1 r, resp1 = b1 :: r := by
    cases resp1 with
    | nil => simp at hlen
    | cons a r => exact ⟨a, r, rfl⟩
  have hb0 : b0 = true := hall b0 (by simp)
  have hb1 : b1 = true := hall b1 (by simp)
  subst hb0
  subst hb1
  have hempty : (exportPairs exportables dir curScene).isEmpty = false := by
    rw [List.isEmpty_eq_false]
    unfold exportPairs
    simpa using hne
  by_cases hd : pathExists fs dir = true <;>
    by_cases ht : (toDeleteList exportables dir curScene fs).isEmpty = true <;>
      simp [exportFbxs, fsAfterDialogs, preEvents, hempty, hd, ht]

/-- Counterexample to claim C1 as stated: a single selected rig whose root
nodes are missing is skipped with a warning, so a completed run writes no
FBX file at all. -/
theorem c1_counterexample : ¬ c1Statement := by
  intro h
  have hrun := h [Exportable.rig "RN1" "bob"] "/exp" "/scenes/shot.ma" true ["JNT_Grp"] []
    (FS.mk [] ["/exp"]) [true, true] (FS.mk [] ["/exp"])
    [Event.notify (warnMsg "bob" ["bob:JNT_Grp"])] (by decide) rfl
  exact absurd hrun (by decide)

/-- Claim C1, amended: on a fully confirmed run with a non-empty selection,
the export writes exactly one FBX file, named
`A_<scene basename>_<name>.fbx` in the chosen directory, per selected item
that is not a skipped rig (a rig is skipped when a non-empty roots list is
given and none of its candidate root nodes exists). -/
theorem c1_one_fbx_per_item (exportables : List Exportable) (dir curScene : String)
    (bake : Bool) (roots sceneNodes : List String) (fs : FS) (resp : List Bool)
    (hne : exportables ≠ []) (hall : ∀ b ∈ resp, b = true) (hlen : 2 ≤ resp.length) :
    ∃ fs1 tr,
      exportFbxs exportables dir curScene bake roots sceneNodes fs resp =
        Except.ok (fs1, tr) ∧
      exportEvents tr =
        (exportables.filter (fun e => !(rigSkipped roots sceneNodes e))).map
          (fbxPath dir curScene) := by
  refine ⟨_, _, exportFbxs_ok_of_confirm exportables dir curScene bake roots sceneNodes
    fs resp hne hall hlen, ?_⟩
  rw [exportEvents_append, exportEvents_preEvents, exportLoop_exportEvents,
    List.nil_append]
  unfold exportPairs
  rw [List.filter_map, List.map_map]
  rfl

/-- Witness for the amended C1: one camera and one rig whose root node
exists are both exported; a rig with missing roots is skipped. -/
theorem c1_witness :
    ([Exportable.cam "cam1" "cam1Shape", Exportable.rig "RN1" "bob",
      Exportable.rig "RN2" "cat"] ≠ ([] : List Exportable)) ∧
    (∀ b ∈ [true, true], b = true) ∧
    2 ≤ ([true, true] : List Bool).length ∧
    (∃ fs1 tr,
      exportFbxs [Exportable.cam "cam1" "cam1Shape", Exportable.rig "RN1" "bob",
          Exportable.rig "RN2" "cat"] "/exp" "/scenes/shot.ma" true ["JNT_Grp"]
          ["bob:JNT_Grp"] (FS.mk [] ["/exp"]) [true, true] =
        Except.ok (fs1, tr) ∧
      exportEvents tr =
        (([Exportable.cam "cam1" "cam1Shape", Exportable.rig "RN1" "bob",
           Exportable.rig "RN2" "cat"]).filter
            (fun e => !(rigSkipped ["JNT_Grp"] ["bob:JNT_Grp"] e))).map
          (fbxPath "/exp" "/scenes/shot.ma")) :=
  ⟨by decide, by decide, by decide,
   c1_one_fbx_per_item [Exportable.cam "cam1" "cam1Shape", Exportable.rig "RN1" "bob",
       Exportable.rig "RN2" "cat"] "/exp" "/scenes/shot.ma" true ["JNT_Grp"]
       ["bob:JNT_Grp"] (FS.mk [] ["/exp"]) [true, true]
       (by decide) (by decide) (by decide)⟩

/-! ## The export pipeline: rigs with missing root nodes -/

theorem exportLoop_notify (bake : Bool) (roots sceneNodes : List String) (rn ns : String)
    (hro : roots.isEmpty = false)
    (hnone : ((rigPossibleNodes ns roots).filter
      (fun n => sceneNodes.contains n)).isEmpty = true) :
    ∀ (items : List (Exportable × String)) (fs : FS) (fbx : String),
      (Exportable.rig rn ns, fbx) ∈ items →
      Event.notify (warnMsg ns (rigPossibleNodes ns roots)) ∈
        (exportLoop bake roots sceneNodes items fs).2 := by
  intro items
  induction items with
  | nil =>
    intro fs fbx h
    simp at h
  | cons p rest ih =>
    intro fs fbx hmem
    obtain ⟨e, f⟩ := p
    simp only [exportLoop, List.mem_append]
    rcases List.mem_cons.1 hmem with heq | hrest
    · left
      rw [Prod.mk.injEq] at heq
      obtain ⟨he, hf⟩ := heq
      rw [← he]
      simp only [exportOne]
      rw [if_neg (by simp [hro]), if_pos hnone]
      simp
    · right
      exact ih _ _ hrest

/-- Claim C3: for every rig exportable in the export list whose namespace
contains none of the (non-empty list of) given root node names, the export
run shows a warning dialog naming the missing candidate root nodes, writes
no FBX for that rig, and still writes one FBX per remaining non-skipped
exportable. -/
theorem c3_missing_roots_warn_and_skip (exportables : List Exportable)
    (dir curScene : String) (bake : Bool) (roots sceneNodes : List String) (fs : FS)
    (resp : List Bool) (rn ns : String)
    (hmem : Exportable.rig rn ns ∈ exportables)
    (hroots : roots ≠ [])
    (habsent : ∀ r ∈ roots, sceneNodes.contains (ns ++ ":" ++ r) = false)
    (hall : ∀ b ∈ resp, b = true) (hlen : 2 ≤ resp.length) :
    ∃ fs1 tr,
      exportFbxs exportables dir curScene bake roots sceneNodes fs resp =
        Except.ok (fs1, tr) ∧
      Event.notify (warnMsg ns (rigPossibleNodes ns roots)) ∈ tr ∧
      rigSkipped roots sceneNodes (Exportable.rig rn ns) = true ∧
      exportEvents tr =
        (exportables.filter (fun e => !(rigSkipped roots sceneNodes e))).map
          (fbxPath dir curScene) := by
  have hne : exportables ≠ [] := List.ne_nil_of_mem hmem
  have hro : roots.isEmpty = false := by
    rw [List.isEmpty_eq_false]
    exact hroots
  have hnone : ((rigPossibleNodes ns roots).filter
      (fun n => sceneNodes.contains n)).isEmpty = true := by
    rw [List.isEmpty_iff, List.filter_eq_nil_iff]
    intro n hn
    obtain ⟨r, hr, rfl⟩ := List.mem_map.1 hn
    simp only [habsent r hr]
    simp
  refine ⟨_, _, exportFbxs_ok_of_confirm exportables dir curScene bake roots sceneNodes
    fs resp hne hall hlen, ?_, ?_, ?_⟩
  · rw [List.mem_append]
    right
    apply exportLoop_notify bake roots sceneNodes rn ns hro hnone _ _
      (fbxPath dir curScene (Exportable.rig rn ns))
    exact List.mem_map.2 ⟨Exportable.rig rn ns, hmem, rfl⟩
  · simp only [rigSkipped, hnone, Bool.and_true]
    simp [hro]
  · rw [exportEvents_append, exportEvents_preEvents, exportLoop_exportEvents,
      List.nil_append]
    unfold exportPairs
    rw [List.filter_map, List.map_map]
    rfl

/-- Witness for C3: a selected rig with no matching root node is skipped
with a warning while a camera in the same run is exported. -/
theorem c3_witness :
    (Exportable.rig "RN2" "cat" ∈
      [Exportable.cam "cam1" "cam1Shape", Exportable.rig "RN2" "cat"]) ∧
    (["JNT_Grp"] : List String) ≠ [] ∧
    (∀ r ∈ ["JNT_Grp"], List.contains ["bob:JNT_Grp"] ("cat" ++ ":" ++ r) = false) ∧
    (∀ b ∈ [true, true], b = true) ∧
    2 ≤ ([true, true] : List Bool).length ∧
    (∃ fs1 tr,
      exportFbxs [Exportable.cam "cam1" "cam1Shape", Exportable.rig "RN2" "cat"]
          "/exp" "/scenes/shot.ma" true ["JNT_Grp"] ["bob:JNT_Grp"]
          (FS.mk [] ["/exp"]) [true, true] =
        Except.ok (fs1, tr) ∧
      Event.notify (warnMsg "cat" (rigPossibleNodes "cat" ["JNT_Grp"])) ∈ tr ∧
      rigSkipped ["JNT_Grp"] ["bob:JNT_Grp"] (Exportable.rig "RN2" "cat") = true ∧
      exportEvents tr =
        (([Exportable.cam "cam1" "cam1Shape", Exportable.rig "RN2" "cat"]).filter
            (fun e => !(rigSkipped ["JNT_Grp"] ["bob:JNT_Grp"] e))).map
          (fbxPath "/exp" "/scenes/shot.ma")) :=
  ⟨by decide, by decide, by decide, by decide, by decide,
   c3_missing_roots_warn_and_skip
     [Exportable.cam "cam1" "cam1Shape", Exportable.rig "RN2" "cat"]
     "/exp" "/scenes/shot.ma" true ["JNT_Grp"] ["bob:JNT_Grp"]
     (FS.mk [] ["/exp"]) [true, true] "RN2" "cat"
     (by decide) (by decide) (by decide) (by decide) (by decide)⟩

/-! ## The export pipeline: dialogs guard the destructive actions -/

theorem pathExists_cons_file (fs : FS) (f p : String) (h : pathExists fs p = true) :
    pathExists { fs with files := f :: fs.files } p = true := by
  simp only [pathExists] at h ⊢
  simp only [List.contains_cons]
  rcases Bool.or_eq_true_iff.1 h with h1 | h2
  · rw [h1]
    simp
  · rw [h2]
    simp

theorem pathExists_cons_dir (fs : FS) (dir : String) :
    pathExists { fs with dirs := dir :: fs.dirs } dir = true := by
  simp [pathExists, List.contains_cons]

theorem pathExists_of_dirs (fs : FS) (dir : String) (h : fs.dirs.contains dir = true) :
    pathExists fs dir = true := by
  simp only [pathExists]
  rw [h]
  simp

theorem fbxExportSelFs_dir_exists (fbx : String) (fs : FS)
    (h : pathExists fs (dirnameStr fbx) = true) :
    fbxExportSelFs fbx fs = ({ fs with files := fbx :: fs.files }, [Event.fbxExport fbx]) := by
  unfold fbxExportSelFs
  simp only [if_pos h]
  rfl

theorem exportOne_under_existing_dir (bake : Bool) (roots sceneNodes : List String)
    (e : Exportable) (fbx : String) (fs : FS) (dir : String)
    (hdir : dirnameStr fbx = dir) (hex : pathExists fs dir = true) :
    pathExists (exportOne bake roots sceneNodes e fbx fs).1 dir = true ∧
    (∀ d, Event.mkdir d ∉ (exportOne bake roots sceneNodes e fbx fs).2) ∧
    (∀ f, Event.remove f ∉ (exportOne bake roots sceneNodes e fbx fs).2) := by
  subst hdir
  have hfbx := fbxExportSelFs_dir_exists fbx fs hex
  cases e with
  | cam t s =>
    have hco : exportOne bake roots sceneNodes (Exportable.cam t s) fbx fs =
        ({ fs with files := fbx :: fs.files }, [Event.fbxExport fbx]) := hfbx
    rw [hco]
    exact ⟨pathExists_cons_file fs fbx _ hex, by simp, by simp⟩
  | rig rn ns =>
    simp only [exportOne]
    by_cases hr : roots.isEmpty = true
    · rw [if_pos hr, hfbx]
      exact ⟨pathExists_cons_file fs fbx _ hex, by simp, by simp⟩
    · by_cases hn : ((rigPossibleNodes ns roots).filter
          (fun n => sceneNodes.contains n)).isEmpty = true
      · rw [if_neg hr, if_pos hn]
        exact ⟨hex, by simp, by simp⟩
      · rw [if_neg hr, if_neg hn, hfbx]
        exact ⟨pathExists_cons_file fs fbx _ hex, by simp, by simp⟩

theorem exportLoop_under_existing_dir (bake : Bool) (roots sceneNodes : List String)
    (dir : String) :
    ∀ (items : List (Exportable × String)) (fs : FS),
      pathExists fs dir = true →
      (∀ p ∈ items, dirnameStr p.2 = dir) →
      (∀ d, Event.mkdir d ∉ (exportLoop bake roots sceneNodes items fs).2) ∧
      (∀ f, Event.remove f ∉ (exportLoop bake roots sceneNodes items fs).2) := by
  intro items
  induction items with
  | nil =>
    intro fs _ _
    exact ⟨by simp [exportLoop], by simp [exportLoop]⟩
  | cons p rest ih =>
    intro fs hex hd
    obtain ⟨e, fbx⟩ := p
    have hd0 : dirnameStr fbx = dir := hd (e, fbx) (by simp)
    obtain ⟨hex1, hmk, hrm⟩ :=
      exportOne_under_existing_dir bake roots sceneNodes e fbx fs dir hd0 hex
    obtain ⟨hmk2, hrm2⟩ := ih (exportOne bake roots sceneNodes e fbx fs).1 hex1
      (fun q hq => hd q (by simp [hq]))
    simp only [exportLoop]
    constructor
    · intro d hmem
      rcases List.mem_append.1 hmem with h | h
      · exact hmk d h
      · exact hmk2 d h
    · intro f hmem
      rcases List.mem_append.1 hmem with h | h
      · exact hrm f h
      · exact hrm2 f h

theorem toDeleteList_ne_nil_dirs (exportables : List Exportable) (dir curScene : String)
    (fs : FS)
    (hwf : (∃ e ∈ exportables, pathExists fs (fbxPath dir curScene e) = true) →
      fs.dirs.contains dir = true)
    (hne : toDeleteList exportables dir curScene fs ≠ []) :
    fs.dirs.contains dir = true := by
  apply hwf
  obtain ⟨p, hp⟩ := List.exists_mem_of_ne_nil _ hne
  unfold toDeleteList exportPairs at hp
  obtain ⟨hpm, hpe⟩ := List.mem_filter.1 hp
  rw [List.map_map] at hpm
  obtain ⟨e, hem, rfl⟩ := List.mem_map.1 hpm
  exact ⟨e, hem, hpe⟩

/-- Claim C2: each destructive filesystem action of the export run is
guarded by a modal Ok/Cancel dialog: on a run that aborts (the user chose
Cancel or dismissed a dialog) the filesystem is unchanged, and on a
completed run every directory creation is the export directory preceded in
the trace by the confirmed create-dir dialog, and every file removal is
preceded in the trace by the confirmed overwrite dialog.  The `hwf`
hypothesis is the filesystem invariant that an existing target file lies in
an existing export directory; `hdirname` says the target file names contain
no separator, so their parent directory is the export directory. -/
theorem c2_dialogs_guard_destructive_actions (exportables : List Exportable)
    (dir curScene : String) (bake : Bool) (roots sceneNodes : List String) (fs : FS)
    (resp : List Bool)
    (hwf : (∃ e ∈ exportables, pathExists fs (fbxPath dir curScene e) = true) →
      fs.dirs.contains dir = true)
    (hdirname : ∀ e ∈ exportables, dirnameStr (fbxPath dir curScene e) = dir) :
    (∀ fs1 tr,
      exportFbxs exportables dir curScene bake roots sceneNodes fs resp =
        Except.error (fs1, tr) → fs1 = fs) ∧
    (∀ fs1 tr,
      exportFbxs exportables dir curScene bake roots sceneNodes fs resp =
        Except.ok (fs1, tr) →
      (∀ d, Event.mkdir d ∈ tr →
        d = dir ∧ ∃ l1 l2, tr = l1 ++ Event.mkdir d :: l2 ∧
          Event.confirm (createMsg dir) ∈ l1) ∧
      (∀ f, Event.remove f ∈ tr →
        ∃ l1 l2, tr = l1 ++ Event.remove f :: l2 ∧
          Event.confirm (owMsg (toDeleteList exportables dir curScene fs)) ∈ l1)) := by
  have hpairs : ∀ p ∈ exportPairs exportables dir curScene, dirnameStr p.2 = dir := by
    intro p hp
    unfold exportPairs at hp
    obtain ⟨e, hem, rfl⟩ := List.mem_map.1 hp
    exact hdirname e hem
  by_cases hemp : exportables = []
  · subst hemp
    have hnil : exportFbxs [] dir curScene bake roots sceneNodes fs resp =
        Except.ok (fs, [Event.notify "Nothing selected to export"]) := rfl
    rw [hnil]
    constructor
    · intro fs1 tr h
      simp at h
    · intro fs1 tr h
      rw [Except.ok.injEq, Prod.mk.injEq] at h
      obtain ⟨rfl, rfl⟩ := h
      constructor
      · intro d hd
        simp at hd
      · intro f hf
        simp at hf
  · have hempty : (exportPairs exportables dir curScene).isEmpty = false := by
      rw [List.isEmpty_eq_false]
      unfold exportPairs
      simpa using hemp
    by_cases hd : pathExists fs dir = true
    · by_cases ht : (toDeleteList exportables dir curScene fs).isEmpty = true
      · have hrun : exportFbxs exportables dir curScene bake roots sceneNodes fs resp =
            Except.ok ((exportLoop bake roots sceneNodes
                (exportPairs exportables dir curScene) fs).1,
              (exportLoop bake roots sceneNodes
                (exportPairs exportables dir curScene) fs).2) := by
          simp [exportFbxs, hempty, hd, ht]
        obtain ⟨hmk, hrm⟩ := exportLoop_under_existing_dir bake roots sceneNodes dir
          (exportPairs exportables dir curScene) fs hd hpairs
        constructor
        · intro fs1 tr h
          rw [hrun] at h
          simp at h
        · intro fs1 tr h
          rw [hrun, Except.ok.injEq, Prod.mk.injEq] at h
          obtain ⟨rfl, rfl⟩ := h
          constructor
          · intro d hdm
            exact absurd hdm (hmk d)
          · intro f hfm
            exact absurd hfm (hrm f)
      · have hdirs : fs.dirs.contains dir = true := by
          apply toDeleteList_ne_nil_dirs exportables dir curScene fs hwf
          intro h0
          rw [h0] at ht
          simp at ht
        cases resp with
        | nil =>
          have hrun : exportFbxs exportables dir curScene bake roots sceneNodes fs [] =
              Except.error (fs, []) := by
            simp [exportFbxs, hempty, hd, ht]
          constructor
          · intro fs1 tr h
            rw [hrun, Except.error.injEq, Prod.mk.injEq] at h
            exact h.1.symm
          · intro fs1 tr h
            rw [hrun] at h
            simp at h
        | cons b r =>
          cases b with
          | false =>
            have hrun : exportFbxs exportables dir curScene bake roots sceneNodes fs
                (false :: r) = Except.error (fs, []) := by
              simp [exportFbxs, hempty, hd, ht]
            constructor
            · intro fs1 tr h
              rw [hrun, Except.error.injEq, Prod.mk.injEq] at h
              exact h.1.symm
            · intro fs1 tr h
              rw [hrun] at h
              simp at h
          | true =>
            have hfs2 : pathExists
                { fs with files := fs.files.filter (fun q => !((toDeleteList exportables dir curScene fs).contains q)) }
                  dir = true :=
              pathExists_of_dirs _ dir hdirs
            obtain ⟨hmk2, hrm2⟩ := exportLoop_under_existing_dir bake roots sceneNodes dir
              (exportPairs exportables dir curScene) _ hfs2 hpairs
            have hrun : exportFbxs exportables dir curScene bake roots sceneNodes fs
                (true :: r) =
                Except.ok ((exportLoop bake roots sceneNodes
                    (exportPairs exportables dir curScene)
                    { fs with files := fs.files.filter (fun q => !((toDeleteList exportables dir curScene fs).contains q)) }).1,
                  Event.confirm (owMsg (toDeleteList exportables dir curScene fs)) ::
                    ((toDeleteList exportables dir curScene fs).map Event.remove ++
                      (exportLoop bake roots sceneNodes
                        (exportPairs exportables dir curScene)
                        { fs with files := fs.files.filter (fun q => !((toDeleteList exportables dir curScene fs).contains q)) }).2)) := by
              simp [exportFbxs, hempty, hd, ht]
            constructor
            · intro fs1 tr h
              rw [hrun] at h
              simp at h
            · intro fs1 tr h
              rw [hrun, Except.ok.injEq, Prod.mk.injEq] at h
              obtain ⟨rfl, rfl⟩ := h
              constructor
              · intro d hdm
                rcases List.mem_cons.1 hdm with hc | hc
                · simp at hc
                rcases List.mem_append.1 hc with hc2 | hc2
                · exact absurd hc2 (by simp [List.mem_map])
                · exact absurd hc2 (hmk2 d)
              · intro f hfm
                rcases List.mem_cons.1 hfm with hc | hc
                · simp at hc
                rcases List.mem_append.1 hc with hc2 | hc2
                · obtain ⟨s, t, hst⟩ := List.append_of_mem hc2
                  refine ⟨Event.confirm
                      (owMsg (toDeleteList exportables dir curScene fs)) :: s,
                    t ++ (exportLoop bake roots sceneNodes
                      (exportPairs exportables dir curScene)
                      { fs with files := fs.files.filter (fun q => !((toDeleteList exportables dir curScene fs).contains q)) }).2,
                    ?_, by simp⟩
                  rw [hst]
                  simp [List.cons_append, List.append_assoc]
                · exact absurd hc2 (hrm2 f)
    · have htd : toDeleteList exportables dir curScene fs = [] := by
        by_contra h0
        exact hd (pathExists_of_dirs fs dir
          (toDeleteList_ne_nil_dirs exportables dir curScene fs hwf h0))
      have ht : (toDeleteList exportables dir curScene fs).isEmpty = true := by
        rw [List.isEmpty_iff]
        exact htd
      cases resp with
      | nil =>
        have hrun : exportFbxs exportables dir curScene bake roots sceneNodes fs [] =
            Except.error (fs, []) := by
          simp [exportFbxs, hempty, hd, ht]
        constructor
        · intro fs1 tr h
          rw [hrun, Except.error.injEq, Prod.mk.injEq] at h
          exact h.1.symm
        · intro fs1 tr h
          rw [hrun] at h
          simp at h
      | cons b r =>
        cases b with
        | false =>
          have hrun : exportFbxs exportables dir curScene bake roots sceneNodes fs
              (false :: r) = Except.error (fs, []) := by
            simp [exportFbxs, hempty, hd, ht]
          constructor
          · intro fs1 tr h
            rw [hrun, Except.error.injEq, Prod.mk.injEq] at h
            exact h.1.symm
          · intro fs1 tr h
            rw [hrun] at h
            simp at h
        | true =>
          have hfs1 : pathExists { fs with dirs := dir :: fs.dirs } dir = true :=
            pathExists_cons_dir fs dir
          obtain ⟨hmk1, hrm1⟩ := exportLoop_under_existing_dir bake roots sceneNodes dir
            (exportPairs exportables dir curScene) _ hfs1 hpairs
          have hrun : exportFbxs exportables dir curScene bake roots sceneNodes fs
              (true :: r) =
              Except.ok ((exportLoop bake roots sceneNodes
                  (exportPairs exportables dir curScene)
                  { fs with dirs := dir :: fs.dirs }).1,
                Event.confirm (createMsg dir) :: Event.mkdir dir ::
                  (exportLoop bake roots sceneNodes
                    (exportPairs exportables dir curScene)
                    { fs with dirs := dir :: fs.dirs }).2) := by
            simp [exportFbxs, hempty, hd, ht]
          constructor
          · intro fs1 tr h
            rw [hrun] at h
            simp at h
          · intro fs1 tr h
            rw [hrun, Except.ok.injEq, Prod.mk.injEq] at h
            obtain ⟨rfl, rfl⟩ := h
            constructor
            · intro d hdm
              rcases List.mem_cons.1 hdm with hc | hc
              · simp at hc
              rcases List.mem_cons.1 hc with hc2 | hc2
              · have hdd : d = dir := by
                  injection hc2
                subst hdd
                refine ⟨rfl, [Event.confirm (createMsg d)],
                  (exportLoop bake roots sceneNodes
                    (exportPairs exportables d curScene)
                    { fs with dirs := d :: fs.dirs }).2, rfl, by simp⟩
              · exact absurd hc2 (hmk1 d)
            · intro f hfm
              rcases List.mem_cons.1 hfm with hc | hc
              · simp at hc
              rcases List.mem_cons.1 hc with hc2 | hc2
              · simp at hc2
              · exact absurd hc2 (hrm1 f)

/-- Witness for C2: with an existing target file and the user cancelling
the overwrite dialog, the run aborts with the filesystem unchanged. -/
theorem c2_witness :
    ((∃ e ∈ [Exportable.cam "cam1" "cam1Shape"],
        pathExists (FS.mk ["/exp/A_shot_cam1.fbx"] ["/exp"])
          (fbxPath "/exp" "/scenes/shot.ma" e) = true) →
      (FS.mk ["/exp/A_shot_cam1.fbx"] ["/exp"]).dirs.contains "/exp" = true) ∧
    (∀ e ∈ [Exportable.cam "cam1" "cam1Shape"],
      dirnameStr (fbxPath "/exp" "/scenes/shot.ma" e) = "/exp") ∧
    ((∀ fs1 tr,
        exportFbxs [Exportable.cam "cam1" "cam1Shape"] "/exp" "/scenes/shot.ma" true
            [] [] (FS.mk ["/exp/A_shot_cam1.fbx"] ["/exp"]) [false] =
          Except.error (fs1, tr) → fs1 = FS.mk ["/exp/A_shot_cam1.fbx"] ["/exp"]) ∧
      (∀ fs1 tr,
        exportFbxs [Exportable.cam "cam1" "cam1Shape"] "/exp" "/scenes/shot.ma" true
            [] [] (FS.mk ["/exp/A_shot_cam1.fbx"] ["/exp"]) [false] =
          Except.ok (fs1, tr) →
        (∀ d, Event.mkdir d ∈ tr →
          d = "/exp" ∧ ∃ l1 l2, tr = l1 ++ Event.mkdir d :: l2 ∧
            Event.confirm (createMsg "/exp") ∈ l1) ∧
        (∀ f, Event.remove f ∈ tr →
          ∃ l1 l2, tr = l1 ++ Event.remove f :: l2 ∧
            Event.confirm (owMsg (toDeleteList [Exportable.cam "cam1" "cam1Shape"]
              "/exp" "/scenes/shot.ma" (FS.mk ["/exp/A_shot_cam1.fbx"] ["/exp"]))) ∈ l1))) :=
  ⟨by decide, by decide,
   c2_dialogs_guard_destructive_actions [Exportable.cam "cam1" "cam1Shape"] "/exp"
     "/scenes/shot.ma" true [] [] (FS.mk ["/exp/A_shot_cam1.fbx"] ["/exp"]) [false]
     (by decide) (by decide)⟩

end FbxExport
